import Mathlib

/-!
Verification of the event-translator real-time speech translation pipeline.

The definitions below are a shallow embedding of the pipeline code:

* `Worker.*` embeds `src/worker/main.py` (class `TranslationBot`,
  `SessionSupervisor`);
* `Legacy.*` embeds `src/worker_legacy/` (notably
  `providers/google/translate.py`).

Audio samples are modelled as rationals (the transport's normalized float
samples), 16-bit PCM values as integers, and the external engines
(recognition, translation, synthesis) as explicit parameters carrying the
outcome of the call, so that every definition is executable.
-/

namespace Worker

/-! ## Frame codec (src/worker/main.py)

`feed_audio` (lines 528-544) clips each inbound float frame to `[-1, 1]`
(`np.clip(pcm, -1.0, 1.0)`) and converts to LINEAR16 with
`(pcm * 32767.0).astype(np.int16)`; numpy's cast to `int16` truncates toward
zero.  The pump (`_pump`, line 561) and the legacy converter
(`src/worker_legacy/audio/converter.py` line 29) decode with
`int16.astype(np.float32) / 32767.0`. -/

/-- Truncation toward zero, the semantics of numpy's `astype(np.int16)`
cast applied to a float value already inside the `int16` range. -/
def truncQ (q : ℚ) : ℤ := if 0 ≤ q then ⌊q⌋ else ⌈q⌉

/-- Embeds `np.clip(pcm, -1.0, 1.0)` on one sample (main.py line 538). -/
def clipSample (x : ℚ) : ℚ := max (-1) (min 1 x)

/-- Embeds `(pcm * 32767.0).astype(np.int16)` on one sample
(main.py lines 225 and 539); the input is assumed already clipped, as on
the `feed_audio` path, so the cast is plain truncation. -/
def encodeSample (x : ℚ) : ℤ := truncQ (x * 32767)

/-- Embeds the decoding `int16 / 32767.0` on one sample
(main.py line 561; worker_legacy/audio/converter.py line 29). -/
def decodeSample (n : ℤ) : ℚ := (n : ℚ) / 32767

/-- The complete per-sample encoding performed by `feed_audio`
(main.py lines 538-539): clip, then convert to LINEAR16. -/
def feedEncode (x : ℚ) : ℤ := encodeSample (clipSample x)

/-! ## Translation worker (src/worker/main.py lines 288-344)

The Google Translate API call is modelled by a parameter
`engine : Except String (List String)`: `.error e` when
`translate_text(request=...)` raises, `.ok ts` when it returns a response
whose `translations` field carries the texts `ts`. -/

/-- Configuration state of the translation path of `TranslationBot`:
whether `self.translate_client` is set and the value of
`self.gcp_project_id`. -/
structure TranslateCfg where
  translate_client : Bool
  gcp_project_id : Option String
  deriving DecidableEq

/-- Embeds `TranslationBot.translate_text` (main.py lines 330-344): when the
client or the project id is missing the input text is returned unchanged;
otherwise the engine is called, an exception propagates, and an empty
`translations` list falls back to the input text
(`resp.translations[0].translated_text if resp.translations else text`). -/
def translate_text (cfg : TranslateCfg) (engine : Except String (List String))
    (text : String) : Except String String :=
  if cfg.translate_client = false ∨ cfg.gcp_project_id = none then .ok text
  else
    match engine with
    | .error e => .error e
    | .ok ts => .ok (ts.headD text)

/-- Structured messages published on the LiveKit data channel by
`publish_data`, plus the fan-out calls issued by `process_stt`. -/
inductive Msg
  | caption (lang text : String) (isFinal : Bool)
  | originalText (lang text : String) (isFinal : Bool) (seq : Nat)
  | translationText (tgtLang srcLang text : String) (isFinal : Bool) (seq : Nat)
  | audioStatus (tgtLang status : String) (seq : Nat)
  | translationCall (text srcLang tgtLang : String) (isFinal : Bool) (seq : Nat)
  deriving DecidableEq

/-- Messages published by `enqueue_tts_audio` (main.py lines 346-393) when
the synthesis succeeded: it returns immediately when `self.tts_client` is
unset, and when the target language has a queue it publishes the `start`
status, enqueues the synthesized bytes, and publishes the `end` status. -/
def enqueue_tts_audio_msgs (tts_client : Bool) (queues : List String)
    (tgtLang : String) (seq : Nat) : List Msg :=
  if tts_client = false then []
  else if tgtLang ∈ queues then
    [Msg.audioStatus tgtLang "start" seq, Msg.audioStatus tgtLang "end" seq]
  else []

/-- Embeds `TranslationBot.handle_translation_and_tts`
(main.py lines 302-328), at the level of the published message list, for a
run in which synthesis and publishing themselves do not raise: the engine
outcome is the `engine` parameter, `tts_client` states whether
`self.tts_client` is set and `queues` lists the keys of
`self.tts_audio_queues`.  On success the `translation-text-{tgt}` message is
published, then TTS runs only for final results; on an engine exception the
`except` branch publishes only the `translation-audio-{tgt}` error status. -/
def handle_translation_and_tts (cfg : TranslateCfg) (tts_client : Bool)
    (queues : List String) (engine : Except String (List String))
    (text srcLang tgtLang : String) (isFinal : Bool) (seq : Nat) : List Msg :=
  match translate_text cfg engine text with
  | .ok translated =>
      Msg.translationText tgtLang srcLang translated isFinal seq ::
        (if isFinal ∧ tts_client = true ∧ tgtLang ∈ queues then
          enqueue_tts_audio_msgs tts_client queues tgtLang seq
         else [])
  | .error _ => [Msg.audioStatus tgtLang "error" seq]

/-- Tests whether the message list contains a `translation-text-*` message
whose text field equals `text`. -/
def hasTranslationTextWith (text : String) (msgs : List Msg) : Bool :=
  msgs.any fun m =>
    match m with
    | .translationText _ _ t _ _ => t = text
    | _ => false

end Worker

namespace Legacy

/-- Embeds `TranslationResult` (src/worker_legacy/models.py) as used by the
Google translate provider. -/
structure TranslationResult where
  text : String
  source_language : String
  target_language : String
  original_text : String
  deriving DecidableEq

/-- Embeds `GoogleTranslateProvider.translate`
(src/worker_legacy/providers/google/translate.py lines 44-88): when the
client or the project id is missing the original text is returned; otherwise
the engine is called and any exception is absorbed, falling back to the
original text; an empty `translations` list also falls back. -/
def GoogleTranslateProvider.translate (client_ok : Bool)
    (project_id : Option String) (engine : Except String (List String))
    (text source_language target_language : String) : TranslationResult :=
  if client_ok = false ∨ project_id = none then
    ⟨text, source_language, target_language, text⟩
  else
    match engine with
    | .error _ => ⟨text, source_language, target_language, text⟩
    | .ok ts => ⟨ts.headD text, source_language, target_language, text⟩

end Legacy

namespace Worker

/-! ## Transcription dispatch (src/worker/main.py lines 230-286)

`process_stt` consumes the recognition engine's result stream.  A result is
modelled by its `alternatives` texts and its `is_final` flag; the nesting of
results inside responses is flattened to one list (the code iterates
`response.results` inside `for response in ...`, skipping empty responses,
which yields the same flat sequence of results). -/

/-- Python's `str.strip()`: drop whitespace from both ends. -/
def pyStrip (s : String) : String :=
  ⟨((s.toList.dropWhile Char.isWhitespace).reverse.dropWhile
      Char.isWhitespace).reverse⟩

/-- One result from the recognition engine stream. -/
structure SttResult where
  alternatives : List String
  is_final : Bool
  deriving DecidableEq

/-- Configuration read by `process_stt`: `self.primary_lang`,
`self.translation_targets` and whether `self.translate_client` is set. -/
structure SttCfg where
  primary_lang : String
  translation_targets : List String
  translate_client : Bool
  deriving DecidableEq

/-- The guard sequence of the result loop (main.py lines 248-252):
skip results without alternatives, take `alternatives[0].transcript.strip()`,
and skip empty transcripts.  Returns the accepted transcript, if any. -/
def acceptedTranscript (r : SttResult) : Option String :=
  match r.alternatives with
  | [] => none
  | a :: _ => if pyStrip a = "" then none else some (pyStrip a)

/-- Embeds the body of the result loop of `process_stt`
(main.py lines 247-281) for one result: on an accepted transcript the
sequence counter is incremented (`self.seq_counter += 1`, for interim and
final results alike), the legacy `caption` and the `original-language-text`
messages are published, and when targets are configured and the translate
client exists one translation task per target is scheduled
(`handle_translation_and_tts`), recorded here as a `translationCall`. -/
def process_result (cfg : SttCfg) (seq : Nat) (r : SttResult) :
    Nat × List Msg :=
  match acceptedTranscript r with
  | none => (seq, [])
  | some transcript =>
      (seq + 1,
        Msg.caption cfg.primary_lang transcript r.is_final ::
          Msg.originalText cfg.primary_lang transcript r.is_final (seq + 1) ::
            (if cfg.translation_targets ≠ [] ∧ cfg.translate_client = true then
              cfg.translation_targets.map fun tgt =>
                Msg.translationCall transcript cfg.primary_lang tgt
                  r.is_final (seq + 1)
            else []))

/-- Embeds `TranslationBot.process_stt` (main.py lines 230-286) over the
flattened result stream, threading `self.seq_counter` (initially 0) and
collecting the published messages and scheduled translation calls. -/
def process_stt (cfg : SttCfg) : Nat → List SttResult → Nat × List Msg
  | seq, [] => (seq, [])
  | seq, r :: rs =>
      let p := process_result cfg seq r
      let rest := process_stt cfg p.1 rs
      (rest.1, p.2 ++ rest.2)

/-- Sequence ids carried by the `original-language-text` messages of a run,
in emission order (one per accepted transcription event). -/
def originalSeqs (msgs : List Msg) : List Nat :=
  msgs.filterMap fun m =>
    match m with
    | .originalText _ _ _ s => some s
    | _ => none

/-- Sequence ids carried by the final (`isFinal = true`)
`original-language-text` messages of a run, in emission order. -/
def finalSeqs (msgs : List Msg) : List Nat :=
  msgs.filterMap fun m =>
    match m with
    | .originalText _ _ true s => some s
    | _ => none

/-- Number of results of the stream that pass the acceptance guards. -/
def acceptedCount (rs : List SttResult) : Nat :=
  (rs.filterMap acceptedTranscript).length

/-! ## Bounded queues (src/worker/main.py lines 380-387, 526, 540)

Both the ingestion buffer (`audio_q`, `asyncio.Queue(maxsize=100)`, fed by
`feed_audio` via `await audio_q.put(linear16)`) and the per-language
synthesis queues (`asyncio.Queue(maxsize=64)`, fed by `enqueue_tts_audio`
via `await q.put(audio_bytes)`) push with the awaited `put` coroutine. -/

/-- Semantics of `await q.put(x)` on an `asyncio.Queue(maxsize)`: completes
immediately with the new queue contents iff the queue is not full; otherwise
the producer suspends until a consumer frees a slot (`none`).  The awaited
`put` never raises `QueueFull` (only `put_nowait` does), so the
`except asyncio.QueueFull` drop-oldest branch of `enqueue_tts_audio`
(main.py lines 381-387) is unreachable and the effective push of both call
sites equals this function. -/
def asyncioQueuePut (maxsize : Nat) (q : List α) (x : α) : Option (List α) :=
  if q.length < maxsize then some (q ++ [x]) else none

/-- Pushing a sequence of items through `asyncioQueuePut` with no concurrent
consumer: the resulting queue contents, or `none` as soon as one push
suspends. -/
def putAll (maxsize : Nat) : List α → List α → Option (List α)
  | q, [] => some q
  | q, x :: xs =>
    match asyncioQueuePut maxsize q x with
    | some q' => putAll maxsize q' xs
    | none => none

/-- Modelled from the spec: the drop-oldest push the spec prescribes for
every bounded pipeline queue ("on push when full, evict the single oldest
queued frame, then insert the new one; never blocks the producer"), stated
here only to compare with the code's `asyncioQueuePut`. -/
def specDropOldestPush (maxsize : Nat) (q : List α) (x : α) : List α :=
  if q.length < maxsize then q ++ [x] else q.tail ++ [x]

/-! ## Room metadata parsing (src/worker/main.py lines 126-175) -/

/-- One entry of the `outputs` array of the room metadata.  `lang` and
`voice` are `none` when the field is absent or not a string
(`isinstance(..., str)` fails); `captions`/`audio` are `true` exactly when
the JSON field `is True`. -/
structure OutputEntry where
  lang : Option String
  captions : Bool
  audio : Bool
  voice : Option String
  deriving DecidableEq

/-- Association-list update with Python `dict` assignment semantics:
overwrite the binding in place if the key is present, else append. -/
def dictSet {α : Type} : List (String × α) → String → α → List (String × α)
  | [], k, v => [(k, v)]
  | (k', v') :: rest, k, v =>
    if k' = k then (k', v) :: rest else (k', v') :: dictSet rest k v

/-- Python `dict.fromkeys` de-duplication: keep the first occurrence of
each element, in order. -/
def dedupFirst : List String → List String
  | [] => []
  | x :: xs => x :: (dedupFirst xs).filter (· ≠ x)

/-- Languages appended to `t_targets` by the outputs loop
(main.py lines 153-166): entries with a nonempty string `lang` whose
`captions` field is `True`, in order. -/
def rawCaptionTargets : List OutputEntry → List String
  | [] => []
  | o :: os =>
    (match o.lang with
      | some lang => if lang ≠ "" ∧ o.captions = true then [lang] else []
      | none => []) ++ rawCaptionTargets os

/-- Languages appended to `a_targets` by the outputs loop: entries with a
nonempty string `lang` whose `audio` field is `True`, in order. -/
def rawAudioTargets : List OutputEntry → List String
  | [] => []
  | o :: os =>
    (match o.lang with
      | some lang => if lang ≠ "" ∧ o.audio = true then [lang] else []
      | none => []) ++ rawAudioTargets os

/-- The updates `self.voice_by_lang[lang] = voice` performed by the outputs
loop (main.py lines 162-164), applied in order to the initial voice map:
each entry with a nonempty string `lang` and a nonempty string `voice`
assigns the voice to that language. -/
def voiceFold (m : List (String × String)) :
    List OutputEntry → List (String × String)
  | [] => m
  | o :: os =>
    voiceFold
      (match o.lang, o.voice with
        | some lang, some v =>
          if lang ≠ "" ∧ v ≠ "" then dictSet m lang v else m
        | _, _ => m) os

/-- The voices assigned to language `l` by the outputs list, in assignment
order (used to state which voice a run leaves in the map). -/
def voicesFor (l : String) (outputs : List OutputEntry) : List String :=
  outputs.filterMap fun o =>
    match o.lang, o.voice with
    | some lang, some v =>
      if lang = l ∧ lang ≠ "" ∧ v ≠ "" then some v else none
    | _, _ => none

/-- The derived targets and voice map of `load_room_metadata`. -/
structure MetaResult where
  t_targets : List String
  a_targets : List String
  voice_by_lang : List (String × String)
  deriving DecidableEq

/-- Embeds the outputs-processing of `TranslationBot.load_room_metadata`
(main.py lines 149-172): collect caption and audio targets and voice
assignments from the entries, then de-duplicate keeping the first
occurrence (`dict.fromkeys`) and remove the source language. -/
def load_room_metadata_outputs (primary : String)
    (voice0 : List (String × String)) (outputs : List OutputEntry) :
    MetaResult :=
  { t_targets := (dedupFirst (rawCaptionTargets outputs)).filter (· ≠ primary)
    a_targets := (dedupFirst (rawAudioTargets outputs)).filter (· ≠ primary)
    voice_by_lang := voiceFold voice0 outputs }

/-! ## Synthesis pump and shutdown (src/worker/main.py lines 548-613)

A per-language synthesis queue carries `some chunk` for a synthesized
LINEAR16 payload (a list of int16 samples, as produced by `np.frombuffer`)
and `none` for the shutdown sentinel `None`. -/

/-- Zero-pad a frame to `fs` samples (main.py lines 570-574). -/
def padTo (fs : Nat) (l : List ℚ) : List ℚ :=
  l ++ List.replicate (fs - l.length) 0

/-- The re-framing loop of `_pump` (main.py lines 562-582): cut the decoded
payload into frames of `fs` samples, zero-padding the final partial frame. -/
def reframe (fs : Nat) (pcm : List ℚ) : List (List ℚ) :=
  if h : fs = 0 ∨ pcm = [] then []
  else padTo fs (pcm.take fs) :: reframe fs (pcm.drop fs)
termination_by pcm.length
decreasing_by
  push_neg at h
  have hlen : 0 < pcm.length := List.length_pos.mpr h.2
  simp only [List.length_drop]
  omega

/-- The frames written to the outbound track by `_pump`
(main.py lines 556-582) while draining the given queue contents: payloads
are decoded sample-wise (`int16 / 32767.0`) and re-framed; the loop breaks
on the first sentinel and writes nothing further. -/
def pumpWrites (fs : Nat) : List (Option (List ℤ)) → List (List ℚ)
  | [] => []
  | none :: _ => []
  | some chunk :: rest =>
    reframe fs (chunk.map decodeSample) ++ pumpWrites fs rest

/-- Whether `_pump` returns after draining the given queue contents:
`true` iff a sentinel is reached (`if audio_bytes is None: break`);
with no sentinel the pump suspends on `await q.get()`. -/
def pumpTerminated : List (Option (List ℤ)) → Bool
  | [] => false
  | none :: _ => true
  | some _ :: rest => pumpTerminated rest

/-- The shutdown step of `run` (main.py lines 603-608): push the `None`
sentinel onto every per-language synthesis queue. -/
def shutdownPush (queues : List (String × List (Option (List ℤ)))) :
    List (String × List (Option (List ℤ))) :=
  queues.map fun p => (p.1, p.2 ++ [none])

/-! ## Start/end framing of one audio segment
(src/worker/main.py lines 368-393 and 548-587)

For one synthesized segment, `enqueue_tts_audio` publishes the `start`
status, enqueues the payload, and publishes the `end` status, while the
pump dequeues the payload and writes its frames; the two tasks run
concurrently and interact only through the queue.  A run is any
interleaving of the two event sequences in which the dequeue happens after
the enqueue. -/

/-- Events of one segment's lifetime: the producer's status messages and
queue insertion, and the pump's dequeue and frame writes. -/
inductive SegEv
  | statusStart (seq : Nat)
  | statusEnd (seq : Nat)
  | putSeg
  | getSeg
  | writeFrame (i : Nat)
  deriving DecidableEq

/-- Event order of `enqueue_tts_audio` (main.py lines 368-393) for one
segment: publish `start`, enqueue the payload, publish `end`. -/
def producerEvents (seq : Nat) : List SegEv :=
  [SegEv.statusStart seq, SegEv.putSeg, SegEv.statusEnd seq]

/-- Event order of `_pump` for one segment of `n` frames: dequeue the
payload, then write its frames in order. -/
def pumpEvents (n : Nat) : List SegEv :=
  SegEv.getSeg :: (List.range n).map SegEv.writeFrame

/-- Interleavings of two event sequences: `Interleave xs ys zs` holds when
`zs` merges `xs` and `ys` preserving the order inside each. -/
inductive Interleave {α : Type} : List α → List α → List α → Prop
  | nil : Interleave [] [] []
  | left {x : α} {xs ys zs : List α} :
      Interleave xs ys zs → Interleave (x :: xs) ys (x :: zs)
  | right {y : α} {xs ys zs : List α} :
      Interleave xs ys zs → Interleave xs (y :: ys) (y :: zs)

/-! ## Session supervisor (src/worker/main.py lines 643-656) -/

/-- Observable state of `SessionSupervisor`: for each room name, whether
the session task is done (`self.sessions[key].done()`), the identity of the
stored bot object, and a counter used as the identity of the next bot
created. -/
structure SupervisorState where
  sessions : List (String × Bool)
  bots : List (String × Nat)
  next_bot : Nat
  deriving DecidableEq

/-- Result values of `SessionSupervisor.start`. -/
inductive StartStatus
  | already_running
  | started
  deriving DecidableEq

/-- Embeds `SessionSupervisor.start` (main.py lines 648-656): when the room
already has a session whose task is not done, report `already_running` and
change nothing; otherwise create a fresh bot and task and store them under
the room name. -/
def SessionSupervisor.start (st : SupervisorState) (roomName : String) :
    StartStatus × SupervisorState :=
  match st.sessions.lookup roomName with
  | some done =>
    if done = false then (.already_running, st)
    else
      (.started,
        ⟨dictSet st.sessions roomName false,
          dictSet st.bots roomName st.next_bot, st.next_bot + 1⟩)
  | none =>
    (.started,
      ⟨dictSet st.sessions roomName false,
        dictSet st.bots roomName st.next_bot, st.next_bot + 1⟩)

end Worker

/-! # Theorems -/

open Worker

/-- Truncation toward zero moves a rational by less than one. -/
theorem truncQ_abs_le (y : ℚ) : |y - truncQ y| ≤ 1 := by
  unfold truncQ
  split
  · rw [abs_le]
    constructor
    · have := Int.floor_le y
      linarith
    · have := Int.lt_floor_add_one y
      linarith
  · rw [abs_le]
    constructor
    · have := Int.ceil_lt_add_one y
      linarith
    · have := Int.le_ceil y
      linarith

/-- Clipping is the identity on in-range samples. -/
theorem clipSample_eq_self {x : ℚ} (hlo : -1 ≤ x) (hhi : x ≤ 1) :
    clipSample x = x := by
  unfold clipSample
  rw [min_eq_right hhi, max_eq_right hlo]

/-- C7: encoding a float sample to linear 16-bit PCM and decoding back
yields a value within 1/32767 of the input for every in-range sample, and
out-of-range samples are clipped to [-1, 1] before conversion (the
`feed_audio` encoding is clip-then-truncate by definition of
`feedEncode`). -/
theorem frame_codec_roundtrip :
    (∀ x : ℚ, -1 ≤ x → x ≤ 1 →
      |x - decodeSample (feedEncode x)| ≤ 1 / 32767)
    ∧ (∀ x : ℚ, x < -1 → clipSample x = -1)
    ∧ (∀ x : ℚ, 1 < x → clipSample x = 1)
    ∧ (∀ x : ℚ, -1 ≤ clipSample x ∧ clipSample x ≤ 1) := by
  refine ⟨?_, ?_, ?_, ?_⟩
  · intro x hlo hhi
    have h32 : (0 : ℚ) < 32767 := by norm_num
    have hfe : feedEncode x = truncQ (x * 32767) := by
      unfold feedEncode encodeSample
      rw [clipSample_eq_self hlo hhi]
    rw [hfe]
    have hrw : x - decodeSample (truncQ (x * 32767)) =
        (x * 32767 - truncQ (x * 32767)) / 32767 := by
      unfold decodeSample
      field_simp
    rw [hrw, abs_div, abs_of_pos h32]
    exact (div_le_div_iff_of_pos_right h32).mpr (truncQ_abs_le (x * 32767))
  · intro x hx
    unfold clipSample
    rw [min_eq_right (le_of_lt (lt_trans hx (by norm_num))),
      max_eq_left (le_of_lt hx)]
  · intro x hx
    unfold clipSample
    rw [min_eq_left (le_of_lt hx)]
    exact max_eq_right (by norm_num)
  · intro x
    unfold clipSample
    constructor
    · exact le_max_left _ _
    · exact max_le (by norm_num) (min_le_left _ _)

/-- Witness for `frame_codec_roundtrip` at the sample 1/2 and the
out-of-range sample 2. -/
theorem frame_codec_roundtrip_witness :
    |(1 / 2 : ℚ) - decodeSample (feedEncode (1 / 2))| ≤ 1 / 32767 ∧
      clipSample 2 = 1 :=
  ⟨frame_codec_roundtrip.1 (1 / 2) (by norm_num) (by norm_num),
    frame_codec_roundtrip.2.2.1 2 (by norm_num)⟩

/-- C10: when the translation client or the GCP project id is not
configured, both the worker's `translate_text` and the legacy provider's
`translate` return the input text unchanged without raising (the worker
returns `.ok`, the legacy provider a passthrough `TranslationResult`),
whatever the engine would have answered. -/
theorem translate_unconfigured_identity :
    (∀ (cfg : TranslateCfg) (engine : Except String (List String))
        (text : String),
      cfg.translate_client = false ∨ cfg.gcp_project_id = none →
        translate_text cfg engine text = Except.ok text)
    ∧ (∀ (client_ok : Bool) (project_id : Option String)
        (engine : Except String (List String)) (text src tgt : String),
      client_ok = false ∨ project_id = none →
        Legacy.GoogleTranslateProvider.translate client_ok project_id engine
          text src tgt = ⟨text, src, tgt, text⟩) := by
  constructor
  · intro cfg engine text h
    unfold translate_text
    rw [if_pos h]
  · intro client_ok project_id engine text src tgt h
    unfold Legacy.GoogleTranslateProvider.translate
    rw [if_pos h]

/-- Witness for `translate_unconfigured_identity`: an unconfigured client
passes a concrete text through even when the engine would raise. -/
theorem translate_unconfigured_identity_witness :
    translate_text ⟨false, some "proj"⟩ (Except.error "quota") "Hello"
        = Except.ok "Hello"
    ∧ Legacy.GoogleTranslateProvider.translate true none
        (Except.error "quota") "Hello" "en-US" "es-ES"
        = ⟨"Hello", "en-US", "es-ES", "Hello"⟩ :=
  ⟨translate_unconfigured_identity.1 ⟨false, some "proj"⟩ (Except.error "quota")
      "Hello" (Or.inl rfl),
    translate_unconfigured_identity.2 true none (Except.error "quota")
      "Hello" "en-US" "es-ES" (Or.inr rfl)⟩

/-- Counterexample to C2: with a configured client, when the translation
engine raises, `handle_translation_and_tts` publishes only the error status
message — no `translation-text-es-ES` message carrying the original text is
published. -/
theorem translation_failure_drops_text_message :
    handle_translation_and_tts ⟨true, some "proj"⟩ true ["es-ES"]
        (Except.error "quota") "Hello" "en-US" "es-ES" true 7
      = [Msg.audioStatus "es-ES" "error" 7]
    ∧ hasTranslationTextWith "Hello"
        (handle_translation_and_tts ⟨true, some "proj"⟩ true ["es-ES"]
          (Except.error "quota") "Hello" "en-US" "es-ES" true 7) = false :=
  ⟨rfl, rfl⟩

/-- C2 (amended): when the translation engine raises on a configured
client, the worker publishes exactly the `translation-audio-{tgt}` error
status with the same sequence id and no `translation-text` message; the
original-text passthrough (a `translation-text-{tgt}` message whose text is
the untranslated source text, with no error status) happens instead when
the client or project id is unconfigured, or when the engine returns an
empty translation list. -/
theorem handle_translation_engine_failure :
    (∀ (cfg : TranslateCfg) (tts : Bool) (queues : List String)
        (e text src tgt : String) (f : Bool) (seq : Nat),
      cfg.translate_client = true → cfg.gcp_project_id ≠ none →
        handle_translation_and_tts cfg tts queues (Except.error e)
          text src tgt f seq = [Msg.audioStatus tgt "error" seq])
    ∧ (∀ (cfg : TranslateCfg) (tts : Bool) (queues : List String)
        (engine : Except String (List String)) (text src tgt : String)
        (f : Bool) (seq : Nat),
      cfg.translate_client = false ∨ cfg.gcp_project_id = none →
        handle_translation_and_tts cfg tts queues engine text src tgt f seq
          = Msg.translationText tgt src text f seq ::
              (if f ∧ tts = true ∧ tgt ∈ queues then
                enqueue_tts_audio_msgs tts queues tgt seq
              else []))
    ∧ (∀ (cfg : TranslateCfg) (tts : Bool) (queues : List String)
        (text src tgt : String) (f : Bool) (seq : Nat),
      cfg.translate_client = true → cfg.gcp_project_id ≠ none →
        handle_translation_and_tts cfg tts queues (Except.ok [])
          text src tgt f seq
          = Msg.translationText tgt src text f seq ::
              (if f ∧ tts = true ∧ tgt ∈ queues then
                enqueue_tts_audio_msgs tts queues tgt seq
              else [])) := by
  refine ⟨?_, ?_, ?_⟩
  · intro cfg tts queues e text src tgt f seq hc hp
    unfold handle_translation_and_tts translate_text
    rw [if_neg]
    rintro (h | h)
    · rw [hc] at h
      exact Bool.noConfusion h
    · exact hp h
  · intro cfg tts queues engine text src tgt f seq h
    unfold handle_translation_and_tts translate_text
    rw [if_pos h]
  · intro cfg tts queues text src tgt f seq hc hp
    unfold handle_translation_and_tts translate_text
    rw [if_neg]
    · rfl
    rintro (h | h)
    · rw [hc] at h
      exact Bool.noConfusion h
    · exact hp h

/-- Witness for `handle_translation_engine_failure` at concrete inputs for
each of its three clauses. -/
theorem handle_translation_engine_failure_witness :
    handle_translation_and_tts ⟨true, some "proj"⟩ false []
        (Except.error "quota") "Hi" "en-US" "fr-FR" false 3
      = [Msg.audioStatus "fr-FR" "error" 3]
    ∧ handle_translation_and_tts ⟨false, none⟩ false []
        (Except.error "quota") "Hi" "en-US" "fr-FR" false 3
      = Msg.translationText "fr-FR" "en-US" "Hi" false 3 ::
          (if False ∧ false = true ∧ "fr-FR" ∈ ([] : List String) then
            enqueue_tts_audio_msgs false [] "fr-FR" 3
          else [])
    ∧ handle_translation_and_tts ⟨true, some "proj"⟩ false []
        (Except.ok []) "Hi" "en-US" "fr-FR" false 3
      = Msg.translationText "fr-FR" "en-US" "Hi" false 3 ::
          (if False ∧ false = true ∧ "fr-FR" ∈ ([] : List String) then
            enqueue_tts_audio_msgs false [] "fr-FR" 3
          else []) :=
  ⟨handle_translation_engine_failure.1 ⟨true, some "proj"⟩ false []
      "quota" "Hi" "en-US" "fr-FR" false 3 rfl (by simp),
    handle_translation_engine_failure.2.1 ⟨false, none⟩ false []
      (Except.error "quota") "Hi" "en-US" "fr-FR" false 3 (Or.inl rfl),
    handle_translation_engine_failure.2.2 ⟨true, some "proj"⟩ false []
      "Hi" "en-US" "fr-FR" false 3 rfl (by simp)⟩

/-- A rejected result contributes nothing and keeps the counter; an
accepted one increments the counter and emits its messages. -/
theorem process_result_fst (cfg : SttCfg) (seq : Nat) (r : SttResult) :
    (process_result cfg seq r).1 =
      seq + (if (acceptedTranscript r).isSome then 1 else 0) := by
  cases h : acceptedTranscript r <;> simp [process_result, h]

/-- The sequence ids of the `original-language-text` messages emitted for
one result: the freshly assigned id on acceptance, nothing otherwise. -/
theorem originalSeqs_process_result (cfg : SttCfg) (seq : Nat)
    (r : SttResult) :
    originalSeqs (process_result cfg seq r).2 =
      if (acceptedTranscript r).isSome then [seq + 1] else [] := by
  cases h : acceptedTranscript r with
  | none => simp [process_result, h, originalSeqs]
  | some t =>
    simp only [process_result, h, originalSeqs, List.filterMap_cons,
      Option.isSome_some, if_true]
    split
    · simp [List.filterMap_map, Function.comp]
    · simp

/-- Unfolding of `acceptedCount` on a cons cell. -/
theorem acceptedCount_cons (r : SttResult) (rs : List SttResult) :
    acceptedCount (r :: rs) =
      (if (acceptedTranscript r).isSome then 1 else 0) + acceptedCount rs := by
  cases h : acceptedTranscript r <;>
    simp [acceptedCount, List.filterMap_cons, h, Nat.add_comm]

/-- The sequence-id projection distributes over message concatenation. -/
theorem originalSeqs_append (a b : List Msg) :
    originalSeqs (a ++ b) = originalSeqs a ++ originalSeqs b := by
  simp [originalSeqs]

/-- Invariant of the dispatch loop: starting from counter value `seq`, a
run over `rs` ends with counter `seq + acceptedCount rs` and emits exactly
the sequence ids `seq+1, …, seq + acceptedCount rs`, in order, one per
accepted result. -/
theorem process_stt_counter_spec (cfg : SttCfg) :
    ∀ (rs : List SttResult) (seq : Nat),
      (process_stt cfg seq rs).1 = seq + acceptedCount rs
      ∧ originalSeqs (process_stt cfg seq rs).2 =
          List.range' (seq + 1) (acceptedCount rs) := by
  intro rs
  induction rs with
  | nil =>
    intro seq
    simp [process_stt, acceptedCount, originalSeqs]
  | cons r rs ih =>
    intro seq
    have hrest := ih (process_result cfg seq r).1
    constructor
    · simp only [process_stt]
      rw [hrest.1, process_result_fst, acceptedCount_cons]
      cases (acceptedTranscript r).isSome <;> simp <;> omega
    · simp only [process_stt]
      rw [originalSeqs_append, originalSeqs_process_result, hrest.2,
        process_result_fst, acceptedCount_cons]
      cases (acceptedTranscript r).isSome
      · simp
      · simp only [if_true, Nat.add_comm 1 (acceptedCount rs),
          List.range'_succ]
        simp [Nat.add_assoc, Nat.add_comm]

/-- Counterexample to C1: a run with one interim and one final accepted
event assigns ids 1 and 2 to them in order (`self.seq_counter` increments
for interim events too), so the single finalized transcription carries id 2
— the ids observed across the N = 1 finalized transcriptions are not
`1, …, N`. -/
theorem interim_event_consumes_seq_id :
    originalSeqs (process_stt ⟨"en-US", [], false⟩ 0
        [⟨["hello"], false⟩, ⟨["world"], true⟩]).2 = [1, 2]
    ∧ finalSeqs (process_stt ⟨"en-US", [], false⟩ 0
        [⟨["hello"], false⟩, ⟨["world"], true⟩]).2 = [2]
    ∧ [2] ≠ List.range' 1 1 := by
  refine ⟨by decide, by decide, by decide⟩

/-- C1 (amended): the Dispatcher assigns sequence ids once per accepted
transcription event, interim and final alike; across any run the assigned
ids are exactly `1, 2, …, N` in order, where `N` counts all accepted
events, and the counter ends at `N` — so ids are strictly increasing and
gap-free over all accepted events, but interim events do consume ids and
the subsequence seen on finals alone may have gaps. -/
theorem process_stt_seq_ids (cfg : SttCfg) (rs : List SttResult) :
    originalSeqs (process_stt cfg 0 rs).2 = List.range' 1 (acceptedCount rs)
    ∧ (process_stt cfg 0 rs).1 = acceptedCount rs := by
  have h := process_stt_counter_spec cfg rs 0
  exact ⟨by simpa using h.2, by simpa using h.1⟩

/-- Counterexample to C3: an interim (non-final) accepted event is fanned
out to translation whenever targets are configured and the translate client
exists — `process_stt` schedules `handle_translation_and_tts` without
consulting `is_final`. -/
theorem interim_event_translated :
    Msg.translationCall "hola" "en-US" "es-ES" false 1 ∈
      (process_stt ⟨"en-US", ["es-ES"], true⟩ 0 [⟨[" hola "], false⟩]).2 := by
  decide

/-- C3 (amended): interim events are forwarded as caption and
original-language-text updates and are also fanned out to translation (one
call per configured target, carrying `isFinal = false`); only speech
synthesis is gated on finality — for a non-final result
`handle_translation_and_tts` publishes the translation text (or the error
status) and never the TTS start/end messages. -/
theorem interim_fanout_and_tts_gate :
    (∀ (cfg : SttCfg) (seq : Nat) (r : SttResult) (transcript tgt : String),
      acceptedTranscript r = some transcript →
      cfg.translation_targets ≠ [] →
      cfg.translate_client = true →
      tgt ∈ cfg.translation_targets →
        Msg.translationCall transcript cfg.primary_lang tgt r.is_final (seq + 1)
          ∈ (process_result cfg seq r).2)
    ∧ (∀ (cfg : TranslateCfg) (tts : Bool) (queues : List String)
        (engine : Except String (List String)) (text src tgt : String)
        (seq : Nat),
        handle_translation_and_tts cfg tts queues engine text src tgt false seq
          = match translate_text cfg engine text with
            | .ok translated =>
                [Msg.translationText tgt src translated false seq]
            | .error _ => [Msg.audioStatus tgt "error" seq]) := by
  constructor
  · intro cfg seq r transcript tgt hacc hne hcl htgt
    simp only [process_result, hacc]
    refine List.mem_cons.mpr (Or.inr (List.mem_cons.mpr (Or.inr ?_)))
    rw [if_pos ⟨hne, hcl⟩]
    exact List.mem_map.mpr ⟨tgt, htgt, rfl⟩
  · intro cfg tts queues engine text src tgt seq
    unfold handle_translation_and_tts
    cases translate_text cfg engine text <;> simp

/-- Witness for `interim_fanout_and_tts_gate`: a concrete interim result
with one configured target is fanned out, and a concrete non-final call
publishes no TTS message. -/
theorem interim_fanout_and_tts_gate_witness :
    Msg.translationCall "hola" "en-US" "fr-FR" false 1
      ∈ (process_result ⟨"en-US", ["fr-FR"], true⟩ 0 ⟨["hola"], false⟩).2
    ∧ handle_translation_and_tts ⟨false, none⟩ true ["fr-FR"]
        (Except.ok ["salut"]) "hola" "en-US" "fr-FR" false 4
      = match translate_text ⟨false, none⟩ (Except.ok ["salut"]) "hola" with
        | .ok translated =>
            [Msg.translationText "fr-FR" "en-US" translated false 4]
        | .error _ => [Msg.audioStatus "fr-FR" "error" 4] :=
  ⟨interim_fanout_and_tts_gate.1 ⟨"en-US", ["fr-FR"], true⟩ 0 ⟨["hola"], false⟩
      "hola" "fr-FR" (by decide) (by decide) rfl (by decide),
    interim_fanout_and_tts_gate.2 ⟨false, none⟩ true ["fr-FR"]
      (Except.ok ["salut"]) "hola" "en-US" "fr-FR" 4⟩

/-- C4 (evaluation at the failing input): a push onto a full queue
suspends instead of evicting — `asyncioQueuePut` returns `none` whenever
the queue already holds `maxsize` items, so a producer pushing K+1 = 3
items into a capacity-2 queue with no consumer blocks on the third push,
whereas the drop-oldest push the spec prescribes would retain `[2, 3]`. -/
theorem queue_put_blocks_when_full :
    (∀ (K : Nat) (q : List ℕ) (x : ℕ),
      q.length = K → asyncioQueuePut K q x = none)
    ∧ putAll 2 [] [1, 2, 3] = none
    ∧ List.foldl (specDropOldestPush 2) [] [1, 2, 3] = [2, 3] := by
  refine ⟨?_, by decide, by decide⟩
  intro K q x h
  simp [asyncioQueuePut, h]

/-- Witness for `queue_put_blocks_when_full` on a concrete full queue. -/
theorem queue_put_blocks_when_full_witness :
    asyncioQueuePut 2 [10, 20] 30 = none ∧ putAll 2 [] [1, 2, 3] = none :=
  ⟨queue_put_blocks_when_full.1 2 [10, 20] 30 rfl,
    queue_put_blocks_when_full.2.1⟩

/-- Keys reachable in a `dictSet` update: every key of the updated map is a
key of the original map or the inserted key. -/
theorem mem_keys_dictSet {α : Type} :
    ∀ (m : List (String × α)) (k : String) (v : α) (x : String),
      x ∈ (dictSet m k v).map Prod.fst → x ∈ m.map Prod.fst ∨ x = k := by
  intro m k v
  induction m with
  | nil =>
    intro x hx
    simp [dictSet] at hx
    exact Or.inr hx
  | cons p rest ih =>
    intro x hx
    obtain ⟨k', v'⟩ := p
    by_cases hk : k' = k
    · simp only [dictSet, if_pos hk, List.map_cons] at hx
      exact Or.inl (by simpa using hx)
    · simp only [dictSet, if_neg hk, List.map_cons] at hx
      rcases List.mem_cons.mp hx with h | h
      · exact Or.inl (List.mem_cons.mpr (Or.inl h))
      · rcases ih x h with h' | h'
        · exact Or.inl (List.mem_cons.mpr (Or.inr h'))
        · exact Or.inr h'

/-- A `dictSet` update preserves uniqueness of the keys. -/
theorem nodup_keys_dictSet {α : Type} :
    ∀ (m : List (String × α)) (k : String) (v : α),
      (m.map Prod.fst).Nodup → ((dictSet m k v).map Prod.fst).Nodup := by
  intro m k v
  induction m with
  | nil =>
    intro _
    simp [dictSet]
  | cons p rest ih =>
    intro hnd
    obtain ⟨k', v'⟩ := p
    simp only [List.map_cons, List.nodup_cons] at hnd
    by_cases hk : k' = k
    · simp only [dictSet, if_pos hk, List.map_cons, List.nodup_cons]
      exact ⟨hnd.1, hnd.2⟩
    · simp only [dictSet, if_neg hk, List.map_cons, List.nodup_cons]
      constructor
      · intro hmem
        rcases mem_keys_dictSet rest k v k' hmem with h | h
        · exact hnd.1 h
        · exact hk h
      · exact ih hnd.2

/-- C9: a start request for a room whose stored session task is not done
returns `already_running` and leaves the supervisor state unchanged (no new
bot, no new task); moreover a start never duplicates a room key, so each
room name holds at most one session. -/
theorem supervisor_start_already_running :
    (∀ (st : SupervisorState) (room : String),
      st.sessions.lookup room = some false →
        SessionSupervisor.start st room = (StartStatus.already_running, st))
    ∧ (∀ (st : SupervisorState) (room : String),
      (st.sessions.map Prod.fst).Nodup →
        (((SessionSupervisor.start st room).2).sessions.map Prod.fst).Nodup) := by
  constructor
  · intro st room h
    unfold SessionSupervisor.start
    rw [h]
    rfl
  · intro st room hnd
    unfold SessionSupervisor.start
    cases h : st.sessions.lookup room with
    | none =>
      exact nodup_keys_dictSet st.sessions room false hnd
    | some done =>
      cases done with
      | false => exact hnd
      | true => exact nodup_keys_dictSet st.sessions room false hnd

/-- A queue that ends with a sentinel always makes the pump loop return. -/
theorem pumpTerminated_append_sentinel :
    ∀ q : List (Option (List ℤ)), pumpTerminated (q ++ [none]) = true := by
  intro q
  induction q with
  | nil => rfl
  | cons o rest ih =>
    cases o with
    | none => rfl
    | some c => simpa [pumpTerminated] using ih

/-- The pump writes nothing from a queue position at or after a sentinel. -/
theorem pumpWrites_stops_at_sentinel (fs : Nat) :
    ∀ q₁ q₂ : List (Option (List ℤ)),
      pumpWrites fs (q₁ ++ none :: q₂) = pumpWrites fs q₁ := by
  intro q₁ q₂
  induction q₁ with
  | nil => rfl
  | cons o rest ih =>
    cases o with
    | none => rfl
    | some c => simp [pumpWrites, ih]

/-- C8: the shutdown step pushes the sentinel onto every per-language
synthesis queue; every pump draining such a queue terminates (it reaches a
sentinel rather than suspending forever on `q.get()`); and a pump never
writes a frame from any queue item at or after a sentinel — the writes of
any queue equal the writes of its prefix before the first sentinel. -/
theorem shutdown_sentinels_stop_pumps (fs : Nat)
    (queues : List (String × List (Option (List ℤ)))) :
    (∀ p ∈ shutdownPush queues, none ∈ p.2)
    ∧ (∀ p ∈ shutdownPush queues, pumpTerminated p.2 = true)
    ∧ (∀ q₁ q₂ : List (Option (List ℤ)),
        pumpWrites fs (q₁ ++ none :: q₂) = pumpWrites fs q₁) := by
  refine ⟨?_, ?_, fun q₁ q₂ => pumpWrites_stops_at_sentinel fs q₁ q₂⟩
  · intro p hp
    simp only [shutdownPush, List.mem_map] at hp
    obtain ⟨⟨l, q⟩, _, rfl⟩ := hp
    simp
  · intro p hp
    simp only [shutdownPush, List.mem_map] at hp
    obtain ⟨⟨l, q⟩, _, rfl⟩ := hp
    exact pumpTerminated_append_sentinel q

/-- Witness for `shutdown_sentinels_stop_pumps` on a one-language queue
holding one synthesized payload. -/
theorem shutdown_sentinels_stop_pumps_witness :
    none ∈ (("es-ES", [some ([16383] : List ℤ), none]) :
        String × List (Option (List ℤ))).2
    ∧ pumpTerminated (("es-ES", [some ([16383] : List ℤ), none]) :
        String × List (Option (List ℤ))).2 = true :=
  ⟨(shutdown_sentinels_stop_pumps 960 [("es-ES", [some [16383]])]).1
      ("es-ES", [some [16383], none]) (by decide),
    (shutdown_sentinels_stop_pumps 960 [("es-ES", [some [16383]])]).2.1
      ("es-ES", [some [16383], none]) (by decide)⟩

/-- Membership is preserved by first-occurrence de-duplication. -/
theorem mem_dedupFirst :
    ∀ (l : List String) (x : String), x ∈ dedupFirst l ↔ x ∈ l := by
  intro l
  induction l with
  | nil => simp [dedupFirst]
  | cons a as ih =>
    intro x
    simp only [dedupFirst, List.mem_cons, List.mem_filter,
      decide_eq_true_eq]
    constructor
    · rintro (rfl | ⟨hx, _⟩)
      · exact Or.inl rfl
      · exact Or.inr ((ih x).mp hx)
    · rintro (rfl | hx)
      · exact Or.inl rfl
      · by_cases hxa : x = a
        · exact Or.inl hxa
        · exact Or.inr ⟨(ih x).mpr hx, hxa⟩

/-- First-occurrence de-duplication yields a duplicate-free list. -/
theorem nodup_dedupFirst : ∀ l : List String, (dedupFirst l).Nodup := by
  intro l
  induction l with
  | nil => simp [dedupFirst]
  | cons a as ih =>
    simp only [dedupFirst, List.nodup_cons]
    constructor
    · intro hmem
      have := List.of_mem_filter hmem
      simp at this
    · exact ih.filter _

/-- Characterizes membership in the raw caption-target list. -/
theorem mem_rawCaptionTargets :
    ∀ (outputs : List OutputEntry) (l : String),
      l ∈ rawCaptionTargets outputs ↔
        ∃ o ∈ outputs, o.lang = some l ∧ l ≠ "" ∧ o.captions = true := by
  intro outputs
  induction outputs with
  | nil => simp [rawCaptionTargets]
  | cons o os ih =>
    intro l
    cases hlang : o.lang with
    | none => simp [rawCaptionTargets, hlang, ih]
    | some lang =>
      by_cases hc : lang ≠ "" ∧ o.captions = true
      · have hEq : rawCaptionTargets (o :: os) =
            lang :: rawCaptionTargets os := by
          simp [rawCaptionTargets, hlang, hc]
        rw [hEq]
        constructor
        · intro hmem
          rcases List.mem_cons.mp hmem with hll | hmem'
          · exact ⟨o, List.mem_cons_self o os, by rw [hlang, hll],
              by rw [hll]; exact hc.1, hc.2⟩
          · obtain ⟨o', ho', hp⟩ := (ih l).mp hmem'
            exact ⟨o', List.mem_cons_of_mem _ ho', hp⟩
        · rintro ⟨o', ho', h1, h2, h3⟩
          rcases List.mem_cons.mp ho' with rfl | ho''
          · rw [hlang] at h1
            exact List.mem_cons.mpr (Or.inl (Option.some.inj h1).symm)
          · exact List.mem_cons.mpr
              (Or.inr ((ih l).mpr ⟨o', ho'', h1, h2, h3⟩))
      · have hEq : rawCaptionTargets (o :: os) = rawCaptionTargets os := by
          simp [rawCaptionTargets, hlang, hc]
        rw [hEq, ih l]
        constructor
        · rintro ⟨o', ho', hp⟩
          exact ⟨o', List.mem_cons_of_mem _ ho', hp⟩
        · rintro ⟨o', ho', h1, h2, h3⟩
          rcases List.mem_cons.mp ho' with rfl | ho''
          · rw [hlang] at h1
            have hll := Option.some.inj h1
            exact absurd ⟨by rw [hll]; exact h2, h3⟩ hc
          · exact ⟨o', ho'', h1, h2, h3⟩

/-- Characterizes membership in the raw audio-target list. -/
theorem mem_rawAudioTargets :
    ∀ (outputs : List OutputEntry) (l : String),
      l ∈ rawAudioTargets outputs ↔
        ∃ o ∈ outputs, o.lang = some l ∧ l ≠ "" ∧ o.audio = true := by
  intro outputs
  induction outputs with
  | nil => simp [rawAudioTargets]
  | cons o os ih =>
    intro l
    cases hlang : o.lang with
    | none => simp [rawAudioTargets, hlang, ih]
    | some lang =>
      by_cases hc : lang ≠ "" ∧ o.audio = true
      · have hEq : rawAudioTargets (o :: os) =
            lang :: rawAudioTargets os := by
          simp [rawAudioTargets, hlang, hc]
        rw [hEq]
        constructor
        · intro hmem
          rcases List.mem_cons.mp hmem with hll | hmem'
          · exact ⟨o, List.mem_cons_self o os, by rw [hlang, hll],
              by rw [hll]; exact hc.1, hc.2⟩
          · obtain ⟨o', ho', hp⟩ := (ih l).mp hmem'
            exact ⟨o', List.mem_cons_of_mem _ ho', hp⟩
        · rintro ⟨o', ho', h1, h2, h3⟩
          rcases List.mem_cons.mp ho' with rfl | ho''
          · rw [hlang] at h1
            exact List.mem_cons.mpr (Or.inl (Option.some.inj h1).symm)
          · exact List.mem_cons.mpr
              (Or.inr ((ih l).mpr ⟨o', ho'', h1, h2, h3⟩))
      · have hEq : rawAudioTargets (o :: os) = rawAudioTargets os := by
          simp [rawAudioTargets, hlang, hc]
        rw [hEq, ih l]
        constructor
        · rintro ⟨o', ho', hp⟩
          exact ⟨o', List.mem_cons_of_mem _ ho', hp⟩
        · rintro ⟨o', ho', h1, h2, h3⟩
          rcases List.mem_cons.mp ho' with rfl | ho''
          · rw [hlang] at h1
            have hll := Option.some.inj h1
            exact absurd ⟨by rw [hll]; exact h2, h3⟩ hc
          · exact ⟨o', ho'', h1, h2, h3⟩

/-- An interleaving contains its left component as a sublist. -/
theorem interleave_sublist_left {α : Type} {xs ys zs : List α}
    (h : Interleave xs ys zs) : xs.Sublist zs := by
  induction h with
  | nil => exact List.Sublist.refl []
  | left _ ih => exact List.Sublist.cons₂ _ ih
  | right _ ih => exact List.Sublist.cons _ ih

/-- An interleaving contains its right component as a sublist. -/
theorem interleave_sublist_right {α : Type} {xs ys zs : List α}
    (h : Interleave xs ys zs) : ys.Sublist zs := by
  induction h with
  | nil => exact List.Sublist.refl []
  | left _ ih => exact List.Sublist.cons _ ih
  | right _ ih => exact List.Sublist.cons₂ _ ih

/-- An interleaving is a permutation of the two components' concatenation. -/
theorem interleave_perm {α : Type} {xs ys zs : List α}
    (h : Interleave xs ys zs) : zs.Perm (xs ++ ys) := by
  induction h with
  | nil => exact List.Perm.refl _
  | left _ ih => exact List.Perm.cons _ ih
  | right _ ih => exact (List.Perm.cons _ ih).trans List.perm_middle.symm

/-- Precedence is transitive in a duplicate-free trace: if `a` occurs
before `b` and `b` before `c`, then `a` occurs before `c`. -/
theorem pair_sublist_trans {α : Type} {a b c : α} :
    ∀ {t : List α}, t.Nodup → List.Sublist [a, b] t → List.Sublist [b, c] t →
      List.Sublist [a, c] t := by
  intro t
  induction t with
  | nil =>
    intro _ hab _
    simp at hab
  | cons x t ih =>
    intro hnd hab hbc
    have hx : x ∉ t := (List.nodup_cons.mp hnd).1
    have hnd' : t.Nodup := (List.nodup_cons.mp hnd).2
    cases hab with
    | cons _ hab' =>
      cases hbc with
      | cons _ hbc' => exact List.Sublist.cons _ (ih hnd' hab' hbc')
      | cons₂ _ hbc' => exact absurd (hab'.subset (by simp)) hx
    | cons₂ _ hab' =>
      cases hbc with
      | cons _ hbc' =>
        have hc : c ∈ t := hbc'.subset (by simp)
        exact List.Sublist.cons₂ _ (List.singleton_sublist.mpr hc)
      | cons₂ _ hbc' => exact List.Sublist.cons₂ _ hbc'

/-- The producer and pump event sequences of one segment share no event. -/
theorem producer_pump_nodup (seq n : Nat) :
    (producerEvents seq ++ pumpEvents n).Nodup := by
  have hinj : Function.Injective SegEv.writeFrame := fun i j h => by
    injection h
  simp [producerEvents, pumpEvents, List.nodup_append, List.nodup_cons,
    List.mem_map]
  exact (List.nodup_range n).map hinj

/-- Counterexample to C5: the run in which `enqueue_tts_audio` completes
before the pump dequeues the segment is an admissible interleaving (the
dequeue follows the enqueue), and in it the `end` status message is
emitted before the segment's only frame is written. -/
theorem segment_end_before_frames :
    Interleave (producerEvents 1) (pumpEvents 1)
        [SegEv.statusStart 1, SegEv.putSeg, SegEv.statusEnd 1, SegEv.getSeg,
          SegEv.writeFrame 0]
    ∧ List.Sublist [SegEv.putSeg, SegEv.getSeg]
        [SegEv.statusStart 1, SegEv.putSeg, SegEv.statusEnd 1, SegEv.getSeg,
          SegEv.writeFrame 0]
    ∧ ¬ List.Sublist [SegEv.writeFrame 0, SegEv.statusEnd 1]
        [SegEv.statusStart 1, SegEv.putSeg, SegEv.statusEnd 1, SegEv.getSeg,
          SegEv.writeFrame 0] := by
  refine ⟨?_, by decide, by decide⟩
  exact Interleave.left (Interleave.left (Interleave.left
    (Interleave.right (Interleave.right Interleave.nil))))

/-- C5 (amended): in every admissible run of one segment (any interleaving
of the producer's and the pump's event orders in which the dequeue follows
the enqueue), the `start` status message precedes every frame write of the
segment, the frames are written in their sequential order, and `start`
precedes `end`; the `end` status message, however, is emitted by
`enqueue_tts_audio` right after enqueueing and need not follow the frame
writes. -/
theorem segment_framing_order (seq n : Nat) (t : List SegEv)
    (hI : Interleave (producerEvents seq) (pumpEvents n) t)
    (hpg : List.Sublist [SegEv.putSeg, SegEv.getSeg] t) :
    (∀ i, i < n → List.Sublist [SegEv.statusStart seq, SegEv.writeFrame i] t)
    ∧ List.Sublist [SegEv.statusStart seq, SegEv.statusEnd seq] t
    ∧ (∀ i j, i < j → j < n →
        List.Sublist [SegEv.writeFrame i, SegEv.writeFrame j] t) := by
  have hprod : (producerEvents seq).Sublist t := interleave_sublist_left hI
  have hpump : (pumpEvents n).Sublist t := interleave_sublist_right hI
  have hnd : t.Nodup :=
    ((interleave_perm hI).nodup_iff).mpr (producer_pump_nodup seq n)
  have hsp : List.Sublist [SegEv.statusStart seq, SegEv.putSeg] t :=
    (List.Sublist.cons₂ _ (List.Sublist.cons₂ _ (List.nil_sublist _))).trans
      hprod
  have hse : List.Sublist [SegEv.statusStart seq, SegEv.statusEnd seq] t :=
    (List.Sublist.cons₂ _ (List.Sublist.cons _ (List.Sublist.refl _))).trans
      hprod
  have hsg : List.Sublist [SegEv.statusStart seq, SegEv.getSeg] t :=
    pair_sublist_trans hnd hsp hpg
  refine ⟨?_, hse, ?_⟩
  · intro i hi
    have hgw : List.Sublist [SegEv.getSeg, SegEv.writeFrame i] t := by
      refine (List.Sublist.cons₂ _ ?_).trans hpump
      exact List.singleton_sublist.mpr
        (List.mem_map.mpr ⟨i, List.mem_range.mpr hi, rfl⟩)
    exact pair_sublist_trans hnd hsg hgw
  · intro i j hij hjn
    have hpair : List.Sublist [i, j] (List.range n) := by
      have h1 : List.Sublist [i] (List.range j) :=
        List.singleton_sublist.mpr (List.mem_range.mpr hij)
      have h2 : List.Sublist ([i] ++ [j]) (List.range j ++ [j]) :=
        h1.append (List.Sublist.refl [j])
      have h3 : List.range j ++ [j] = List.range (j + 1) :=
        (List.range_succ j).symm
      have h4 : List.Sublist (List.range (j + 1)) (List.range n) :=
        List.range_sublist.mpr hjn
      rw [h3] at h2
      exact h2.trans h4
    have hmap : List.Sublist [SegEv.writeFrame i, SegEv.writeFrame j]
        ((List.range n).map SegEv.writeFrame) := by
      simpa using hpair.map SegEv.writeFrame
    exact (List.Sublist.cons _ hmap).trans hpump

/-- Witness for `segment_framing_order` on the concrete admissible run in
which the producer finishes before the pump starts, for a two-frame
segment. -/
theorem segment_framing_order_witness :
    (∀ i, i < 2 → List.Sublist [SegEv.statusStart 5, SegEv.writeFrame i]
      [SegEv.statusStart 5, SegEv.putSeg, SegEv.statusEnd 5, SegEv.getSeg,
        SegEv.writeFrame 0, SegEv.writeFrame 1])
    ∧ List.Sublist [SegEv.statusStart 5, SegEv.statusEnd 5]
      [SegEv.statusStart 5, SegEv.putSeg, SegEv.statusEnd 5, SegEv.getSeg,
        SegEv.writeFrame 0, SegEv.writeFrame 1]
    ∧ (∀ i j, i < j → j < 2 →
        List.Sublist [SegEv.writeFrame i, SegEv.writeFrame j]
      [SegEv.statusStart 5, SegEv.putSeg, SegEv.statusEnd 5, SegEv.getSeg,
        SegEv.writeFrame 0, SegEv.writeFrame 1]) :=
  segment_framing_order 5 2 _
    (Interleave.left (Interleave.left (Interleave.left
      (Interleave.right (Interleave.right (Interleave.right Interleave.nil))))))
    (by decide)

/-- Looking up the just-assigned key returns the just-assigned value. -/
theorem lookup_dictSet_self {α : Type} :
    ∀ (m : List (String × α)) (k : String) (v : α),
      (dictSet m k v).lookup k = some v := by
  intro m k v
  induction m with
  | nil => simp [dictSet, List.lookup]
  | cons p rest ih =>
    obtain ⟨k', v'⟩ := p
    by_cases h : k' = k
    · simp [dictSet, h, List.lookup]
    · have hb : (k == k') = false := by
        simp only [beq_eq_false_iff_ne, ne_eq]
        exact fun hh => h hh.symm
      simp [dictSet, h, List.lookup, hb, ih]

/-- Assigning one key leaves the lookup of any other key unchanged. -/
theorem lookup_dictSet_ne {α : Type} :
    ∀ (m : List (String × α)) (k l : String) (v : α), l ≠ k →
      (dictSet m k v).lookup l = m.lookup l := by
  intro m k l v hlk
  have hb : (l == k) = false := by
    simp only [beq_eq_false_iff_ne, ne_eq]
    exact hlk
  induction m with
  | nil => simp [dictSet, List.lookup, hb]
  | cons p rest ih =>
    obtain ⟨k', v'⟩ := p
    by_cases h : k' = k
    · have hb' : (l == k') = false := by
        simp only [beq_eq_false_iff_ne, ne_eq]
        rw [h]
        exact hlk
      simp [dictSet, h, List.lookup, hb', hb]
    · simp [dictSet, h, List.lookup, ih]

/-- After the outputs loop, the voice stored for a language is the last
voice the outputs assigned to it, falling back to the initial map. -/
theorem lookup_voiceFold (l : String) :
    ∀ (outputs : List OutputEntry) (m : List (String × String)),
      (voiceFold m outputs).lookup l =
        ((voicesFor l outputs).getLast?).or (m.lookup l) := by
  intro outputs
  induction outputs with
  | nil =>
    intro m
    simp [voiceFold, voicesFor]
  | cons o os ih =>
    intro m
    cases hlang : o.lang with
    | none => simp [voiceFold, voicesFor, hlang, List.filterMap_cons, ih]
    | some lang =>
      cases hv : o.voice with
      | none => simp [voiceFold, voicesFor, hlang, hv, List.filterMap_cons, ih]
      | some v =>
        by_cases hcontrib : lang = l ∧ lang ≠ "" ∧ v ≠ ""
        · obtain ⟨h1, h2, h3⟩ := hcontrib
          have hfold : lang ≠ "" ∧ v ≠ "" := ⟨h2, h3⟩
          have hEq1 : voiceFold m (o :: os) =
              voiceFold (dictSet m lang v) os := by
            simp [voiceFold, hlang, hv, hfold]
          have hl2 : l ≠ "" := h1 ▸ h2
          have hEq2 : voicesFor l (o :: os) = v :: voicesFor l os := by
            simp [voicesFor, List.filterMap_cons, hlang, hv, h1, hl2, h3]
          rw [hEq1, hEq2, ih, h1, lookup_dictSet_self]
          cases hrest : (voicesFor l os).getLast? with
          | none =>
            have : (v :: voicesFor l os).getLast? = some v := by
              rcases List.eq_nil_or_concat (voicesFor l os) with hnil | ⟨_, _, _⟩
              · rw [hnil]
                rfl
              · rename_i ys y hys
                rw [hys] at hrest
                simp at hrest
            rw [this]
            rfl
          | some w =>
            have : (v :: voicesFor l os).getLast? = some w := by
              have hne : voicesFor l os ≠ [] := by
                intro hnil
                rw [hnil] at hrest
                simp at hrest
              rw [show v :: voicesFor l os = [v] ++ voicesFor l os from rfl,
                List.getLast?_append_of_ne_nil [v] hne, hrest]
            rw [this]
            rfl
        · have hEq2 : voicesFor l (o :: os) = voicesFor l os := by
            simp [voicesFor, List.filterMap_cons, hlang, hv, hcontrib]
          by_cases hfold : lang ≠ "" ∧ v ≠ ""
          · have hne : l ≠ lang := by
              intro h
              exact hcontrib ⟨h.symm, hfold⟩
            have hEq1 : voiceFold m (o :: os) =
                voiceFold (dictSet m lang v) os := by
              simp [voiceFold, hlang, hv, hfold]
            rw [hEq1, hEq2, ih, lookup_dictSet_ne m lang l v hne]
          · have hEq1 : voiceFold m (o :: os) = voiceFold m os := by
              simp [voiceFold, hlang, hv, hfold]
            rw [hEq1, hEq2, ih]

/-- Counterexample to C6: two `es-ES` entries with voices `voiceA` then
`voiceB` leave `voiceB` in the voice map — the assignment
`self.voice_by_lang[lang] = voice` lets the last-seen voice win, not the
first-seen one. -/
theorem duplicate_voice_last_wins :
    (load_room_metadata_outputs "en-US" []
        [⟨some "es-ES", true, false, some "voiceA"⟩,
          ⟨some "es-ES", true, false, some "voiceB"⟩]).voice_by_lang
      = [("es-ES", "voiceB")]
    ∧ (load_room_metadata_outputs "en-US" []
        [⟨some "es-ES", true, false, some "voiceA"⟩,
          ⟨some "es-ES", true, false, some "voiceB"⟩]).voice_by_lang
      ≠ [("es-ES", "voiceA")] := by
  refine ⟨by decide, by decide⟩

/-- C6 (amended): a language is a caption target iff some output entry
names it with `captions == true`, and an audio target iff some entry names
it with `audio == true`; the source language and the empty language tag
are excluded from both derived sets; duplicates collapse to one entry; and
for each language the voice map holds the last voice assigned by the
outputs (falling back to the pre-existing entry), i.e. the last-seen voice
wins, not the first-seen one. -/
theorem load_room_metadata_parsing (primary : String)
    (voice0 : List (String × String)) (outputs : List OutputEntry)
    (l : String) :
    (l ∈ (load_room_metadata_outputs primary voice0 outputs).t_targets ↔
      l ≠ primary ∧ l ≠ "" ∧
        ∃ o ∈ outputs, o.lang = some l ∧ o.captions = true)
    ∧ (l ∈ (load_room_metadata_outputs primary voice0 outputs).a_targets ↔
      l ≠ primary ∧ l ≠ "" ∧
        ∃ o ∈ outputs, o.lang = some l ∧ o.audio = true)
    ∧ (load_room_metadata_outputs primary voice0 outputs).t_targets.Nodup
    ∧ (load_room_metadata_outputs primary voice0 outputs).a_targets.Nodup
    ∧ (load_room_metadata_outputs primary voice0 outputs).voice_by_lang.lookup
        l = ((voicesFor l outputs).getLast?).or (voice0.lookup l) := by
  refine ⟨?_, ?_, ?_, ?_, lookup_voiceFold l outputs voice0⟩
  · simp only [load_room_metadata_outputs, List.mem_filter,
      decide_eq_true_eq, mem_dedupFirst, mem_rawCaptionTargets]
    constructor
    · rintro ⟨⟨o, ho, h1, h2, h3⟩, hp⟩
      exact ⟨hp, h2, o, ho, h1, h3⟩
    · rintro ⟨hp, h2, o, ho, h1, h3⟩
      exact ⟨⟨o, ho, h1, h2, h3⟩, hp⟩
  · simp only [load_room_metadata_outputs, List.mem_filter,
      decide_eq_true_eq, mem_dedupFirst, mem_rawAudioTargets]
    constructor
    · rintro ⟨⟨o, ho, h1, h2, h3⟩, hp⟩
      exact ⟨hp, h2, o, ho, h1, h3⟩
    · rintro ⟨hp, h2, o, ho, h1, h3⟩
      exact ⟨⟨o, ho, h1, h2, h3⟩, hp⟩
  · exact (nodup_dedupFirst _).filter _
  · exact (nodup_dedupFirst _).filter _

/-- Witness for `supervisor_start_already_running` on a one-room state
whose task is still running. -/
theorem supervisor_start_already_running_witness :
    SessionSupervisor.start ⟨[("room1", false)], [("room1", 0)], 1⟩ "room1"
      = (StartStatus.already_running,
        ⟨[("room1", false)], [("room1", 0)], 1⟩)
    ∧ ((SessionSupervisor.start
        ⟨[("room1", false)], [("room1", 0)], 1⟩ "room1").2.sessions.map
          Prod.fst).Nodup :=
  ⟨supervisor_start_already_running.1
      ⟨[("room1", false)], [("room1", 0)], 1⟩ "room1" (by decide),
    supervisor_start_already_running.2
      ⟨[("room1", false)], [("room1", 0)], 1⟩ "room1" (by decide)⟩
